import Mathlib

/-!
# SpriteForge pixel-analysis core: a shallow embedding

This file embeds the image-processing core of the SpriteForge repository
(`spriteforge/image_processor.py`) as executable Lean definitions and
proves, or refutes, the specified properties of

* `get_selection_image` (region extraction / cropping),
* `find_unique_colors` (colors exclusive to a region),
* `create_unique_sprite` (RGBA highlight of unique colors),
* `extract_transparent_sprite` together with its inner `diff_image`
  (sequence differencing over the PNG files of a directory),

including the progress-callback traces of the three analytical
operations.

Images are grids of RGB pixels in row-major order (a list of rows, each
row a list of `(r, g, b)` channel triples), matching PIL's pixel
addressing.  PIL-specific behaviours are modelled faithfully:

* `Image.crop` takes a box `(x, y, x + w, y + h)` whose right/bottom
  edges are exclusive, and zero-fills pixels that fall outside the
  source image;
* `ImageDraw.rectangle((x, y, x + w, y + h), fill=0)` fills the pixels
  with `x ≤ i ≤ x + w` and `y ≤ j ≤ y + h` — both corners inclusive;
* `numpy.unique(_, axis=0).tolist()` returns the distinct rows sorted
  ascending lexicographically;
* `list.sort(reverse=True)` sorts descending lexicographically;
* `Image.convert('L')` computes the ITU-R 601-2 luma
  `(19595 r + 38470 g + 7471 b + 32768) >> 16`;
* `diff.point([0] + [255]*255)` maps luma `0` to `0` and every nonzero
  luma to `255`, `ImageChops.invert` flips that mask, and
  `new.paste(b, mask=diff)` keeps `b`'s pixel exactly where the mask is
  `255`.

The directory scan of `extract_transparent_sprite` is modelled by a list
of booleans, one per discovered PNG file, recording whether
`PILImage.open` succeeds on that file (the opened image itself is never
read by the code, so no further data about it is needed).
-/

namespace SpriteForge

/-- An RGB pixel: channel triple `(r, g, b)`, each channel `0–255`. -/
abbrev Color : Type := Nat × Nat × Nat

/-- An RGBA pixel: `(r, g, b, a)`. -/
abbrev RGBA : Type := Nat × Nat × Nat × Nat

/-- A raster image: rows of RGB pixels, row-major. -/
abbrev Img : Type := List (List Color)

/-- A selection rectangle `(x, y, width, height)`, integer-valued as in the
Python code (nothing in `image_processor.py` restricts the values). -/
abbrev Sel : Type := Int × Int × Int × Int

/-- The color black, which is both PIL's zero-fill for out-of-bounds crop
pixels and the `fill=0` color of `ImageDraw.rectangle`. -/
def blackC : Color := (0, 0, 0)

/-- Pixel lookup at integer coordinates with PIL's crop semantics: any
coordinate outside the image reads as black (zero-fill). -/
def pixelAt (img : Img) (x y : Int) : Color :=
  if 0 ≤ x ∧ 0 ≤ y then (img.getD y.toNat []).getD x.toNat blackC
  else blackC

/-- `ImageProcessor.get_selection_image`: crop the box
`(x, y, x + w, y + h)` out of the image — right and bottom edges
exclusive, out-of-bounds pixels zero-filled, exactly as `Image.crop`.
The Python method performs no validation of the selection. -/
def get_selection_image (img : Img) (sel : Sel) : Img :=
  (List.range sel.2.2.2.toNat).map fun (j : Nat) =>
    (List.range sel.2.2.1.toNat).map fun (i : Nat) =>
      pixelAt img (sel.1 + (i : Int)) (sel.2.1 + (j : Int))

/-- Lexicographic `≤` on RGB triples: the row order used by
`numpy.unique(axis=0)` and by Python's `list.sort` on `[r, g, b]` lists. -/
def lexLe (a b : Color) : Bool :=
  decide (a.1 < b.1 ∨ (a.1 = b.1 ∧
    (a.2.1 < b.2.1 ∨ (a.2.1 = b.2.1 ∧ a.2.2 ≤ b.2.2))))

/-- Ordered insertion with respect to a boolean comparison. -/
def insertOrd (le : Color → Color → Bool) (c : Color) : List Color → List Color
  | [] => [c]
  | x :: xs => if le c x then c :: x :: xs else x :: insertOrd le c xs

/-- Insertion sort with respect to a boolean comparison.  The lists this
development sorts are duplicate-free, so any correct sorting algorithm
produces the same output as Python's sort / numpy's row sort. -/
def sortOrd (le : Color → Color → Bool) (l : List Color) : List Color :=
  l.foldr (insertOrd le) []

/-- `np.unique(np.asarray(data), axis=0).tolist()`: distinct rows, sorted
ascending lexicographically. -/
def npUnique (l : List Color) : List Color :=
  sortOrd lexLe l.dedup

/-- `ImageDraw.Draw(copy).rectangle((x, y, x + w, y + h), fill=0)`:
blacken every pixel whose coordinates satisfy `x ≤ i ≤ x + w` and
`y ≤ j ≤ y + h` — PIL's rectangle is inclusive of *both* corner points,
so the blanked area is one pixel wider and taller than the crop box. -/
def rectFill (img : Img) (sel : Sel) : Img :=
  img.mapIdx fun j row =>
    row.mapIdx fun i p =>
      if sel.1 ≤ (i : Int) ∧ (i : Int) ≤ sel.1 + sel.2.2.1 ∧
         sel.2.1 ≤ (j : Int) ∧ (j : Int) ≤ sel.2.1 + sel.2.2.2
      then blackC else p

/-- `ImageProcessor.find_unique_colors`: crop the selection, blank the
selection rectangle (inclusive corners) in a copy of the whole image,
rescan the *entire* blanked copy for its distinct colors, keep the
sprite colors not occurring in that rescan, and sort the survivors in
descending lexicographic order (`unique_colors.sort(reverse=True)`). -/
def find_unique_colors (img : Img) (sel : Sel) : List Color :=
  let sprite := get_selection_image img sel
  let rest := npUnique (rectFill img sel).flatten
  let spritePx := npUnique sprite.flatten
  let u := spritePx.filter fun c => decide (c ∉ rest)
  sortOrd (fun a b => lexLe b a) u

/-- `ImageProcessor.create_unique_sprite`: if `find_unique_colors` is
empty return `None`; otherwise emit, for every pixel of the cropped
selection, `(r, g, b, 255)` when its RGB is in the unique list and
`(0, 0, 0, 0)` otherwise. -/
def create_unique_sprite (img : Img) (sel : Sel) : Option (List (List RGBA)) :=
  let spriteArr := get_selection_image img sel
  let u := find_unique_colors img sel
  if u = [] then none
  else some (spriteArr.map fun row =>
    row.map fun p => if p ∈ u then (p.1, p.2.1, p.2.2, 255) else (0, 0, 0, 0))

/-- ITU-R 601-2 luma as computed by PIL's `convert('L')`:
`(19595 r + 38470 g + 7471 b + 32768) >> 16`. -/
def luma (c : Color) : Nat :=
  (19595 * c.1 + 38470 * c.2.1 + 7471 * c.2.2 + 32768) / 65536

/-- Per-channel absolute difference, `ImageChops.difference` on one pixel. -/
def chanDiff (a b : Color) : Color :=
  (Nat.dist a.1 b.1, Nat.dist a.2.1 b.2.1, Nat.dist a.2.2 b.2.2)

/-- One pixel of the inner `diff_image` of `extract_transparent_sprite`:
the channel difference is converted to luma and thresholded through
`point([0] + [255]*255)`; after `invert` and `paste(b, mask=diff)` the
result keeps `b`'s pixel where the luma of the difference is `0` and
leaves opaque black where it is nonzero. -/
def diffPixel (pa pb : Color) : Color :=
  if luma (chanDiff pa pb) = 0 then pb else blackC

/-- The inner `diff_image(a, b)` of `extract_transparent_sprite`: a
3-channel RGB image (the Python value has mode `'RGB'`, no alpha) whose
pixels come from `b` where the luma-thresholded difference is zero and
are solid black where the crops differ. -/
def diff_image (a b : Img) : Img :=
  List.zipWith (fun ra rb => List.zipWith diffPixel ra rb) a b

/-- Lines 271–288 of `image_processor.py`: if no sections were collected
return `None`; otherwise pop the first section and left-fold
`diff_image` over the remaining ones (each later crop is compared with
the *cumulative* result, not with the first crop). -/
def foldDiff (sections : List Img) : Option Img :=
  match sections with
  | [] => none
  | s :: rest => some (rest.foldl (fun acc sec => diff_image acc sec) s)

/-- `ImageProcessor.extract_transparent_sprite`, with the directory scan
abstracted: `loads` has one entry per PNG file found next to the primary
image, `true` when `PILImage.open` succeeds on it.  The opened per-file
image is never read: every collected section is
`self.get_selection_image(selection)`, a crop of the single primary
image.  Fewer than 2 PNG files yield `None`; otherwise the collected
sections are folded with `diff_image`. -/
def extract_transparent_sprite (img : Img) (sel : Sel) (loads : List Bool) :
    Option Img :=
  if loads.length < 2 then none
  else
    foldDiff (loads.filterMap fun ok =>
      if ok then some (get_selection_image img sel) else none)

/-- The percentages `find_unique_colors` reports to a progress callback
(the image is loaded, so the early-return path is not taken): fixed
checkpoints 5, 10, 30, 50, 70, 90, 100. -/
def find_unique_colors_trace : List Nat :=
  [5, 10, 30, 50, 70, 90, 100]

/-- The percentages `create_unique_sprite` reports: 10, 20, then — when
the unique-color list is nonempty — one update per row index divisible
by 10, `20 + (idx * 70) / total_rows` (Python's
`20 + int((idx / total_rows) * 70)`), and finally 100. -/
def create_unique_sprite_trace (img : Img) (sel : Sel) : List Nat :=
  let T := (get_selection_image img sel).length
  if find_unique_colors img sel = [] then [10, 20, 100]
  else
    [10, 20] ++
    (((List.range T).filter fun idx => idx % 10 == 0).map fun idx =>
      20 + (idx * 70) / T) ++
    [100]

/-- The percentages `extract_transparent_sprite` reports: 1 before the
PNG count check; one update per discovered file, `1 + (idx * 40) / n`;
then, when at least one section was collected, one update per folded
section, `41 + (idx * 59) / (k - 1)` for `k` collected sections, and a
final 100. -/
def extract_transparent_sprite_trace (loads : List Bool) : List Nat :=
  let n := loads.length
  if n < 2 then [1]
  else
    let loadUpd := (List.range n).map fun idx => 1 + (idx * 40) / n
    let k := loads.count true
    if k = 0 then [1] ++ loadUpd
    else
      [1] ++ loadUpd ++
        ((List.range (k - 1)).map fun idx => 41 + (idx * 59) / (k - 1)) ++
        [100]

/-- The pixels of `img` at coordinates strictly outside the selection
rectangle (used only to state the specification side of the color-set
difference; follows the spec's words "the distinct RGB colors appearing
in `image` at pixel coordinates outside `region`"). -/
def exteriorPixels (img : Img) (sel : Sel) : List Color :=
  ((List.range img.length).map fun j =>
    (List.range ((img.getD j []).length)).filterMap fun i =>
      if sel.1 ≤ Int.ofNat i ∧ Int.ofNat i < sel.1 + sel.2.2.1 ∧
         sel.2.1 ≤ Int.ofNat j ∧ Int.ofNat j < sel.2.1 + sel.2.2.2
      then none
      else some ((img.getD j []).getD i blackC)).flatten

/-- Specification-side unique-color analysis, written from the spec's
words for comparison with `find_unique_colors`: the distinct colors
inside the region minus the distinct colors of the true, unmodified
pixels strictly outside it, sorted descending lexicographically. -/
def spec_unique_colors (img : Img) (sel : Sel) : List Color :=
  let regionCs := npUnique (get_selection_image img sel).flatten
  let extCs := npUnique (exteriorPixels img sel)
  sortOrd (fun a b => lexLe b a) (regionCs.filter fun c => decide (c ∉ extCs))

/-- Specification-side sequence diff, written from the spec's words for
comparison with `foldDiff`: given at least two same-size crops, a pixel
is opaque with the *first* crop's color exactly when its RGB is
identical across every crop, and is `(0, 0, 0, 0)` otherwise. -/
def spec_sequence_diff (crops : List Img) : Option (List (List RGBA)) :=
  match crops with
  | [] => none
  | [_] => none
  | first :: rest =>
    some (first.mapIdx fun j row =>
      row.mapIdx fun i p =>
        if rest.all fun c => ((c.getD j []).getD i blackC) == p
        then (p.1, p.2.1, p.2.2, 255) else (0, 0, 0, 0))

/-- A concrete 2×2 sample image used by witness instantiations. -/
def sampleImg : Img := [[(1,1,1), (2,2,2)], [(3,3,3), (4,4,4)]]

/-- The sections collected by `extract_transparent_sprite` are all the same
crop of the primary image: the filterMap over the load outcomes produces
one copy of that crop per successfully opened file. -/
theorem filterMap_load_sections (loads : List Bool) (c : Img) :
    (loads.filterMap fun ok => if ok then some c else none)
      = List.replicate (loads.count true) c := by
  induction loads with
  | nil => rfl
  | cons b l ih =>
    cases b <;>
      simp [List.filterMap_cons, List.count_cons, ih, List.replicate_succ]

/-- Comparing a pixel with itself: the channel difference is zero, its luma
is zero, so `diff_image` keeps the pixel. -/
theorem diffPixel_self (p : Color) : diffPixel p p = p := by
  simp [diffPixel, chanDiff, Nat.dist_self, luma]

/-- Comparing a row with itself leaves it unchanged. -/
theorem zipWith_diffPixel_self (r : List Color) :
    List.zipWith diffPixel r r = r := by
  rw [List.zipWith_same]
  simp [diffPixel_self]

/-- Comparing an image with itself leaves it unchanged. -/
theorem diff_image_self (a : Img) : diff_image a a = a := by
  unfold diff_image
  rw [List.zipWith_same]
  simp [diffPixel_self]

/-- Folding `diff_image` over copies of the same crop returns that crop. -/
theorem foldl_diff_replicate (n : Nat) (c : Img) :
    (List.replicate n c).foldl (fun acc sec => diff_image acc sec) c = c := by
  induction n with
  | zero => rfl
  | succ m ih => simp [List.replicate_succ, diff_image_self, ih]

/-- `foldDiff` on `k` copies of one crop: `none` when `k = 0`, the crop
itself otherwise. -/
theorem foldDiff_replicate (k : Nat) (c : Img) :
    foldDiff (List.replicate k c) = if k = 0 then none else some c := by
  cases k with
  | zero => rfl
  | succ m => simp [List.replicate_succ, foldDiff, foldl_diff_replicate]

/-- Reading index `j` of a map over `List.range n` yields the function
value at `j` whenever `j < n`. -/
theorem getD_map_range {b : Type} (n : Nat) (f : Nat → b) (d : b) (j : Nat)
    (hj : j < n) : ((List.range n).map f).getD j d = f j := by
  rw [List.getD_eq_getElem?_getD,
      List.getElem?_eq_getElem (by simpa using hj)]
  simp

/-- Claim C1 — `find_unique_colors` does *not* compute the set difference
against the true unmodified exterior pixels: on the 3×1 image
`[(0,0,0), (255,0,0), (255,0,0)]` with the valid region `(0,0,1,1)`,
blanking the region in a copy and rescanning the whole copy injects
black into the exterior set, so the code returns `[]`, while the
claimed set difference (region colors minus true-exterior colors) is
`[(0,0,0)]` — black occurs only inside the region. -/
theorem find_unique_colors_blanked_rescan_bug :
    find_unique_colors [[(0,0,0), (255,0,0), (255,0,0)]] (0, 0, 1, 1) = [] ∧
    spec_unique_colors [[(0,0,0), (255,0,0), (255,0,0)]] (0, 0, 1, 1)
      = [(0,0,0)] := by
  constructor <;> rfl

/-- Claim C2 — the sequence diff does not produce the claimed RGBA buffer:
on two 1×1 crops `(255,255,255)` and `(0,0,0)` the fold yields an
opaque black 3-channel RGB pixel `(0,0,0)` (the Python result has mode
`'RGB'`, no alpha channel at all), not a transparent `(0,0,0,0)`; and on
two 1×1 crops `(255,255,255)` and `(254,255,255)`, whose RGB values are
*not* identical, the luma-thresholded comparison treats them as equal
and the output pixel is opaque with the *second* crop's color
`(254,255,255)`, not the first crop's color and not transparent — while
the spec-side diff makes that pixel `(0,0,0,0)`. -/
theorem diff_image_rgb_output_bug :
    foldDiff [[[(255,255,255)]], [[(0,0,0)]]] = some [[(0,0,0)]] ∧
    foldDiff [[[(255,255,255)]], [[(254,255,255)]]]
      = some [[(254,255,255)]] ∧
    spec_sequence_diff [[[(255,255,255)]], [[(254,255,255)]]]
      = some [[(0,0,0,0)]] := by
  refine ⟨rfl, rfl, rfl⟩

/-- Claim C3 counterexample — region extraction does not fail on a region
violating the Region invariant: on a 1×1 image, the selection
`(0, 0, 2, 1)` extends past the image bounds, yet `get_selection_image`
returns a 2×1 buffer whose out-of-bounds pixel is silently zero-filled
instead of surfacing an `InvalidRegion` error. -/
theorem get_selection_image_accepts_invalid_region :
    get_selection_image [[(7,8,9)]] (0, 0, 2, 1) = [[(7,8,9), (0,0,0)]] := by
  rfl

/-- Claim C5 counterexample — with 2 PNG files of which one is unreadable,
exactly one usable crop remains after skipping, and
`extract_transparent_sprite` does *not* return "no result": it returns
that single crop unchanged. -/
theorem extract_transparent_sprite_single_crop_counterexample :
    extract_transparent_sprite [[(9,9,9)]] (0, 0, 1, 1) [true, false]
      = some [[(9,9,9)]] := by
  rfl

/-- Claim C6 — a region covering the entire image does not yield every
distinct color of the image: on the 1×1 all-black image with region
`(0,0,1,1)`, the blanked-copy rescan still sees black, so the code
returns `[]`, while the distinct colors of the image (equally the
spec-side set difference with its empty exterior) are `[(0,0,0)]`. -/
theorem find_unique_colors_full_region_black_bug :
    find_unique_colors [[(0,0,0)]] (0, 0, 1, 1) = [] ∧
    npUnique ([[(0,0,0)]] : Img).flatten = [(0,0,0)] ∧
    spec_unique_colors [[(0,0,0)]] (0, 0, 1, 1) = [(0,0,0)] := by
  refine ⟨rfl, rfl, rfl⟩

/-- Claim C7 — a solid-color image with a proper sub-region does not yield
an empty result: on the 2×1 solid red image with region `(0,0,1,1)`,
`ImageDraw.rectangle` blanks the inclusive corner coordinates `0 ≤ i ≤ 1`,
i.e. the *whole* copy, so red is absent from the rescanned exterior and
the code returns `[(255,0,0)]`, while the spec-side set difference is
`[]` (red also occurs at the true exterior pixel `(1,0)`). -/
theorem find_unique_colors_solid_color_overblank_bug :
    find_unique_colors [[(255,0,0), (255,0,0)]] (0, 0, 1, 1) = [(255,0,0)] ∧
    spec_unique_colors [[(255,0,0), (255,0,0)]] (0, 0, 1, 1) = [] := by
  constructor <;> rfl

/-- Claim C10 — every comparison section of `extract_transparent_sprite`
is cropped from the single primary loaded image (the image opened per
file in the loop is never read), so with at least 2 PNG files present,
whenever the operation returns a buffer at all, that buffer is exactly
the plain crop of the primary image: all sections are pixel-identical
and no pixel is ever marked as differing. -/
theorem extract_transparent_sprite_ignores_loaded_images (img : Img)
    (sel : Sel) (loads : List Bool) (h2 : 2 ≤ loads.length) :
    extract_transparent_sprite img sel loads = none ∨
    extract_transparent_sprite img sel loads
      = some (get_selection_image img sel) := by
  unfold extract_transparent_sprite
  rw [if_neg (by omega), filterMap_load_sections, foldDiff_replicate]
  by_cases hk : loads.count true = 0
  · exact Or.inl (by rw [if_pos hk])
  · exact Or.inr (by rw [if_neg hk])

/-- Witness for claim C10 at a concrete input: a 1×1 primary image, a
full-image selection and two readable PNG files. -/
theorem extract_transparent_sprite_ignores_loaded_images_witness :
    extract_transparent_sprite [[(5,5,5)]] (0, 0, 1, 1) [true, true] = none ∨
    extract_transparent_sprite [[(5,5,5)]] (0, 0, 1, 1) [true, true]
      = some (get_selection_image [[(5,5,5)]] (0, 0, 1, 1)) :=
  extract_transparent_sprite_ignores_loaded_images
    [[(5,5,5)]] (0, 0, 1, 1) [true, true] (by decide)

/-- Claim C5 amended — `extract_transparent_sprite` returns "no result"
exactly when fewer than 2 PNG files are found or *zero* usable crops
remain after skipping unreadable sources; when exactly one crop remains
after skipping it does not return "no result" but that single crop
unchanged. -/
theorem extract_transparent_sprite_no_result_iff (img : Img) (sel : Sel)
    (loads : List Bool) :
    (extract_transparent_sprite img sel loads = none ↔
      loads.length < 2 ∨ loads.count true = 0) ∧
    (2 ≤ loads.length → loads.count true = 1 →
      extract_transparent_sprite img sel loads
        = some (get_selection_image img sel)) := by
  unfold extract_transparent_sprite
  constructor
  · by_cases h : loads.length < 2
    · simp [h]
    · rw [if_neg h, filterMap_load_sections, foldDiff_replicate]
      by_cases hk : loads.count true = 0
      · simp [hk, h]
      · simp [hk, h]
  · intro h2 h1
    rw [if_neg (by omega), filterMap_load_sections, foldDiff_replicate, h1]
    simp

/-- Witness for the amended claim C5 at concrete inputs: two unreadable
files give "no result"; one readable and one unreadable file give the
single crop back. -/
theorem extract_transparent_sprite_no_result_iff_witness :
    extract_transparent_sprite [[(9,9,9)]] (0, 0, 2, 1) [false, false]
      = none ∧
    extract_transparent_sprite [[(4,4,4)]] (0, 0, 1, 1) [true, false]
      = some (get_selection_image [[(4,4,4)]] (0, 0, 1, 1)) :=
  ⟨(extract_transparent_sprite_no_result_iff
      [[(9,9,9)]] (0, 0, 2, 1) [false, false]).1.mpr (Or.inr (by decide)),
   (extract_transparent_sprite_no_result_iff
      [[(4,4,4)]] (0, 0, 1, 1) [true, false]).2 (by decide) (by decide)⟩

/-- Claim C8 — for a well-formed image and a region satisfying the Region
invariant, `get_selection_image` returns a buffer of exactly
`height × width` pixels, and the pixel at `(i, j)` is the source pixel
at `(x + i, y + j)`, whose coordinates are genuinely inside the image. -/
theorem get_selection_image_extracts (img : Img) (W : Nat) (x y w h : Int)
    (j i : Nat)
    (hwf : ∀ row ∈ img, row.length = W)
    (hx : 0 ≤ x) (hy : 0 ≤ y) (hw : 0 < w) (hh : 0 < h)
    (hxw : x + w ≤ (W : Int)) (hyh : y + h ≤ (img.length : Int))
    (hj : j < h.toNat) (hi : i < w.toNat) :
    (get_selection_image img (x, y, w, h)).length = h.toNat ∧
    (∀ row ∈ get_selection_image img (x, y, w, h), row.length = w.toNat) ∧
    y.toNat + j < img.length ∧
    x.toNat + i < (img.getD (y.toNat + j) []).length ∧
    ((get_selection_image img (x, y, w, h)).getD j []).getD i blackC
      = (img.getD (y.toNat + j) []).getD (x.toNat + i) blackC := by
  have hunf : get_selection_image img (x, y, w, h)
      = (List.range h.toNat).map (fun (j2 : Nat) =>
          (List.range w.toNat).map fun (i2 : Nat) =>
            pixelAt img (x + (i2 : Int)) (y + (j2 : Int))) := rfl
  have hyN : (y + h).toNat = y.toNat + h.toNat := Int.toNat_add hy (le_of_lt hh)
  have hlenN : y.toNat + h.toNat ≤ img.length := by
    have h2 := Int.toNat_le_toNat hyh
    rwa [hyN, Int.toNat_natCast] at h2
  have hrow : y.toNat + j < img.length := by omega
  have hgetrow : img.getD (y.toNat + j) [] = img.get ⟨y.toNat + j, hrow⟩ := by
    rw [List.getD_eq_getElem?_getD, List.getElem?_eq_getElem hrow,
        Option.getD_some]
    simp [List.get_eq_getElem]
  have hWrow : (img.getD (y.toNat + j) []).length = W := by
    rw [hgetrow]; exact hwf _ (List.get_mem _ _ _)
  have hxN : (x + w).toNat = x.toNat + w.toNat := Int.toNat_add hx (le_of_lt hw)
  have hWlen : x.toNat + w.toNat ≤ W := by
    have h2 := Int.toNat_le_toNat hxw
    rwa [hxN, Int.toNat_natCast] at h2
  have hcol : x.toNat + i < (img.getD (y.toNat + j) []).length := by
    rw [hWrow]; omega
  refine ⟨by simp [hunf], ?_, hrow, hcol, ?_⟩
  · intro row hrowm
    rw [hunf] at hrowm
    simp only [List.mem_map] at hrowm
    obtain ⟨jj, _, rfl⟩ := hrowm
    simp
  · rw [hunf, getD_map_range _ _ _ _ hj, getD_map_range _ _ _ _ hi]
    show pixelAt img (x + i) (y + j) = _
    rw [pixelAt, if_pos ⟨by positivity, by positivity⟩]
    rw [Int.toNat_add hy (Int.natCast_nonneg j), Int.toNat_natCast,
        Int.toNat_add hx (Int.natCast_nonneg i), Int.toNat_natCast]

/-- Witness for claim C8 at a concrete input: the 2×2 sample image with
the valid region `(1, 0, 1, 2)` (right column), reading pixel `(0, 1)`
of the crop. -/
theorem get_selection_image_extracts_witness :
    (get_selection_image sampleImg (1, 0, 1, 2)).length = 2 ∧
    (∀ row ∈ get_selection_image sampleImg (1, 0, 1, 2), row.length = 1) ∧
    1 < sampleImg.length ∧
    1 < (sampleImg.getD 1 []).length ∧
    ((get_selection_image sampleImg (1, 0, 1, 2)).getD 1 []).getD 0 blackC
      = (sampleImg.getD 1 []).getD 1 blackC :=
  get_selection_image_extracts sampleImg 2 1 0 1 2 1 0
    (by decide) (by decide) (by decide) (by decide) (by decide)
    (by decide) (by decide) (by decide) (by decide)

/-- Claim C3 amended — `get_selection_image` performs *no* region
validation: for any region with positive width and height, even one
extending past the image bounds or with negative offsets, it returns a
`height × width` buffer in which every pixel whose source coordinate
lies inside the image is copied and every out-of-bounds pixel is
silently zero-filled; no `InvalidRegion` failure exists. -/
theorem get_selection_image_no_validation (img : Img) (W : Nat)
    (x y w h : Int) (j i : Nat)
    (hwf : ∀ row ∈ img, row.length = W)
    (hw : 0 < w) (hh : 0 < h)
    (hj : j < h.toNat) (hi : i < w.toNat) :
    (get_selection_image img (x, y, w, h)).length = h.toNat ∧
    (∀ row ∈ get_selection_image img (x, y, w, h), row.length = w.toNat) ∧
    ((get_selection_image img (x, y, w, h)).getD j []).getD i blackC
      = if 0 ≤ x + (i : Int) ∧ 0 ≤ y + (j : Int) ∧
           (y + (j : Int)).toNat < img.length ∧ (x + (i : Int)).toNat < W
        then (img.getD (y + (j : Int)).toNat []).getD (x + (i : Int)).toNat
               blackC
        else blackC := by
  have hunf : get_selection_image img (x, y, w, h)
      = (List.range h.toNat).map (fun (j2 : Nat) =>
          (List.range w.toNat).map fun (i2 : Nat) =>
            pixelAt img (x + (i2 : Int)) (y + (j2 : Int))) := rfl
  refine ⟨by simp [hunf], ?_, ?_⟩
  · intro row hrowm
    rw [hunf] at hrowm
    simp only [List.mem_map] at hrowm
    obtain ⟨jj, _, rfl⟩ := hrowm
    simp
  · rw [hunf, getD_map_range _ _ _ _ hj, getD_map_range _ _ _ _ hi]
    show pixelAt img (x + i) (y + j) = _
    rw [pixelAt]
    by_cases hcond : 0 ≤ x + (i : Int) ∧ 0 ≤ y + (j : Int)
    · rw [if_pos hcond]
      by_cases hrow : (y + (j : Int)).toNat < img.length
      · by_cases hcol2 : (x + (i : Int)).toNat < W
        · rw [if_pos ⟨hcond.1, hcond.2, hrow, hcol2⟩]
        · rw [if_neg (fun hc => hcol2 hc.2.2.2)]
          have hrg : img.getD (y + (j : Int)).toNat []
              = img.get ⟨(y + (j : Int)).toNat, hrow⟩ := by
            rw [List.getD_eq_getElem?_getD, List.getElem?_eq_getElem hrow,
                Option.getD_some]
            simp [List.get_eq_getElem]
          have hlen2 : (img.getD (y + (j : Int)).toNat []).length = W := by
            rw [hrg]; exact hwf _ (List.get_mem _ _ _)
          exact List.getD_eq_default _ _ (by rw [hlen2]; omega)
      · rw [if_neg (fun hc => hrow hc.2.2.1)]
        have hnil : img.getD (y + (j : Int)).toNat [] = [] :=
          List.getD_eq_default _ _ (le_of_not_lt hrow)
        rw [hnil]
        rfl
    · rw [if_neg hcond, if_neg (fun hc => hcond ⟨hc.1, hc.2.1⟩)]

/-- Witness for the amended claim C3 at a concrete input: a 1×1 image with
the invalid region `(0, 0, 2, 1)` (width 2 exceeds the image); the
out-of-bounds pixel `(1, 0)` of the returned buffer is zero-filled. -/
theorem get_selection_image_no_validation_witness :
    (get_selection_image [[(1,2,3)]] (0, 0, 2, 1)).length = 1 ∧
    (∀ row ∈ get_selection_image [[(1,2,3)]] (0, 0, 2, 1), row.length = 2) ∧
    ((get_selection_image [[(1,2,3)]] (0, 0, 2, 1)).getD 0 []).getD 1 blackC
      = blackC :=
  get_selection_image_no_validation [[(1,2,3)]] 1 0 0 2 1 0 1
    (by decide) (by decide) (by decide) (by decide) (by decide)

/-- Reading an in-range index through `getD` is reading the element. -/
theorem getD_of_lt {a : Type} (l : List a) (j : Nat) (d : a)
    (hj : j < l.length) : l.getD j d = l.get ⟨j, hj⟩ := by
  rw [List.getD_eq_getElem?_getD, List.getElem?_eq_getElem hj, Option.getD_some]
  simp [List.get_eq_getElem]

/-- Reading an in-range index of a mapped list through `getD`. -/
theorem getD_map_of_lt {a b : Type} (f : a → b) (l : List a) (j : Nat) (d : b)
    (hj : j < l.length) : (l.map f).getD j d = f (l.get ⟨j, hj⟩) := by
  rw [List.getD_eq_getElem?_getD, List.getElem?_eq_getElem (by simpa using hj)]
  simp [List.get_eq_getElem]

/-- Claim C4 — `create_unique_sprite` returns `None` exactly when
`find_unique_colors` on the same inputs is empty; otherwise the buffer
has one row per crop row and pixel `(i, j)` is `(r, g, b, 255)` with its
RGB in the unique color list when opaque, and `(0, 0, 0, 0)` with its
source RGB not in the list otherwise. -/
theorem create_unique_sprite_spec (img : Img) (sel : Sel) :
    (create_unique_sprite img sel = none ↔ find_unique_colors img sel = []) ∧
    (∀ out j i, create_unique_sprite img sel = some out →
      j < out.length → i < (out.getD j []).length →
      out.length = (get_selection_image img sel).length ∧
      (out.getD j []).length
        = ((get_selection_image img sel).getD j []).length ∧
      (((out.getD j []).getD i (0,0,0,0)).2.2.2 = 255 →
        (out.getD j []).getD i (0,0,0,0)
          = ((((get_selection_image img sel).getD j []).getD i blackC).1,
             (((get_selection_image img sel).getD j []).getD i blackC).2.1,
             (((get_selection_image img sel).getD j []).getD i blackC).2.2,
             255) ∧
        ((get_selection_image img sel).getD j []).getD i blackC
          ∈ find_unique_colors img sel) ∧
      (((out.getD j []).getD i (0,0,0,0)).2.2.2 ≠ 255 →
        (out.getD j []).getD i (0,0,0,0) = (0,0,0,0) ∧
        ((get_selection_image img sel).getD j []).getD i blackC
          ∉ find_unique_colors img sel)) := by
  constructor
  · by_cases hu : find_unique_colors img sel = [] <;>
      simp [create_unique_sprite, hu]
  · intro out j i hout hj hi
    simp only [create_unique_sprite] at hout
    by_cases hu : find_unique_colors img sel = []
    · rw [if_pos hu] at hout
      exact absurd hout (by simp)
    · rw [if_neg hu] at hout
      have hM := Option.some.inj hout
      subst hM
      have hjS : j < (get_selection_image img sel).length := by
        simpa using hj
      have hrowEq : ((get_selection_image img sel).map (fun row =>
            row.map fun p =>
              if p ∈ find_unique_colors img sel then (p.1, p.2.1, p.2.2, 255)
              else (0,0,0,0))).getD j []
          = ((get_selection_image img sel).get ⟨j, hjS⟩).map (fun p =>
              if p ∈ find_unique_colors img sel then (p.1, p.2.1, p.2.2, 255)
              else (0,0,0,0)) := getD_map_of_lt _ _ _ _ hjS
      rw [hrowEq] at hi ⊢
      have hiS : i < ((get_selection_image img sel).get ⟨j, hjS⟩).length := by
        simpa using hi
      rw [getD_map_of_lt _ _ _ _ hiS, getD_of_lt _ _ _ hjS, getD_of_lt _ _ _ hiS]
      refine ⟨by simp, by simp, ?_⟩
      by_cases hp : ((get_selection_image img sel).get ⟨j, hjS⟩).get ⟨i, hiS⟩
          ∈ find_unique_colors img sel
      · rw [if_pos hp]
        exact ⟨fun _ => ⟨rfl, hp⟩, fun hne => absurd rfl hne⟩
      · rw [if_neg hp]
        exact ⟨fun h255 => absurd h255 (by decide), fun _ => ⟨rfl, hp⟩⟩

/-- `(idx * c) / T ≤ c` whenever `idx < T`: the per-step progress
increments of the row and file loops never exceed their budget. -/
theorem div_mul_bound (idx c T : Nat) (h : idx < T) : (idx * c) / T ≤ c := by
  calc (idx * c) / T ≤ (T * c) / T :=
        Nat.div_le_div_right (Nat.mul_le_mul_right c (le_of_lt h))
  _ = c := Nat.mul_div_cancel_left c (by omega)

/-- A strictly increasing index list maps to a non-decreasing progress
list under `idx ↦ a + (idx * c) / T`. -/
theorem pairwise_le_scaled (l : List Nat) (a c T : Nat)
    (hl : List.Pairwise (· < ·) l) :
    List.Pairwise (· ≤ ·) (l.map fun idx => a + (idx * c) / T) :=
  List.Pairwise.map _ (fun u v huv =>
    Nat.add_le_add_left
      (Nat.div_le_div_right (Nat.mul_le_mul_right c (le_of_lt huv))) a) hl

/-- Claim C9 — in every run of `find_unique_colors`,
`create_unique_sprite` and `extract_transparent_sprite` that invokes a
progress callback, the reported percentages are monotonically
non-decreasing and each lies in `[0, 100]` (values are naturals, hence
`≥ 0`). -/
theorem progress_reports_monotone_bounded (img : Img) (sel : Sel)
    (loads : List Bool) :
    (List.Pairwise (· ≤ ·) find_unique_colors_trace ∧
      ∀ p ∈ find_unique_colors_trace, p ≤ 100) ∧
    (List.Pairwise (· ≤ ·) (create_unique_sprite_trace img sel) ∧
      ∀ p ∈ create_unique_sprite_trace img sel, p ≤ 100) ∧
    (List.Pairwise (· ≤ ·) (extract_transparent_sprite_trace loads) ∧
      ∀ p ∈ extract_transparent_sprite_trace loads, p ≤ 100) := by
  refine ⟨⟨by decide, by decide⟩, ?_, ?_⟩
  · -- create_unique_sprite trace
    simp only [create_unique_sprite_trace]
    by_cases hu : find_unique_colors img sel = []
    · rw [if_pos hu]
      exact ⟨by decide, by decide⟩
    · rw [if_neg hu]
      generalize (get_selection_image img sel).length = T
      have hR : ∀ p ∈ (((List.range T).filter fun idx => idx % 10 == 0).map
          fun idx => 20 + (idx * 70) / T), 20 ≤ p ∧ p ≤ 90 := by
        intro p hp
        simp only [List.mem_map, List.mem_filter, List.mem_range] at hp
        obtain ⟨idx, ⟨hidx, _⟩, rfl⟩ := hp
        have hb := div_mul_bound idx 70 T hidx
        refine ⟨Nat.le_add_right 20 _, ?_⟩
        calc 20 + idx * 70 / T ≤ 20 + 70 := Nat.add_le_add_left hb 20
        _ ≤ 90 := by norm_num
      have hPR : List.Pairwise (· ≤ ·)
          (((List.range T).filter fun idx => idx % 10 == 0).map
            fun idx => 20 + (idx * 70) / T) :=
        pairwise_le_scaled _ 20 70 T
          ((List.pairwise_lt_range T).filter _)
      constructor
      · rw [List.pairwise_append]
        refine ⟨?_, by decide, ?_⟩
        · rw [List.pairwise_append]
          refine ⟨by decide, hPR, ?_⟩
          intro a ha b hb
          have h20 := (hR b hb).1
          have : a = 10 ∨ a = 20 := by
            simp only [List.mem_cons, List.mem_singleton] at ha
            tauto
          omega
        · intro a ha b hb
          simp only [List.mem_singleton] at hb
          subst hb
          rcases List.mem_append.mp ha with h1 | h2
          · have : a = 10 ∨ a = 20 := by
              simp only [List.mem_cons, List.mem_singleton] at h1
              tauto
            omega
          · have := (hR _ h2).2; omega
      · intro p hp
        rcases List.mem_append.mp hp with h1 | h2
        · rcases List.mem_append.mp h1 with h3 | h4
          · have : p = 10 ∨ p = 20 := by
              simp only [List.mem_cons, List.mem_singleton] at h3
              tauto
            omega
          · have := (hR _ h4).2; omega
        · simp only [List.mem_singleton] at h2; omega
  · -- extract_transparent_sprite trace
    simp only [extract_transparent_sprite_trace]
    by_cases hn : loads.length < 2
    · rw [if_pos hn]
      exact ⟨by decide, by decide⟩
    · rw [if_neg hn]
      generalize loads.length = n
      generalize loads.count true = k
      have hL : ∀ p ∈ ((List.range n).map fun idx => 1 + (idx * 40) / n),
          1 ≤ p ∧ p ≤ 41 := by
        intro p hp
        simp only [List.mem_map, List.mem_range] at hp
        obtain ⟨idx, hidx, rfl⟩ := hp
        have hb := div_mul_bound idx 40 n hidx
        refine ⟨Nat.le_add_right 1 _, ?_⟩
        calc 1 + idx * 40 / n ≤ 1 + 40 := Nat.add_le_add_left hb 1
        _ ≤ 41 := by norm_num
      have hPL : List.Pairwise (· ≤ ·)
          ((List.range n).map fun idx => 1 + (idx * 40) / n) :=
        pairwise_le_scaled _ 1 40 n (List.pairwise_lt_range n)
      by_cases hk : k = 0
      · rw [if_pos hk]
        constructor
        · rw [List.pairwise_append]
          refine ⟨by decide, hPL, ?_⟩
          intro a ha b hb
          simp only [List.mem_singleton] at ha
          subst ha
          exact (hL b hb).1
        · intro p hp
          rcases List.mem_append.mp hp with h1 | h2
          · simp only [List.mem_singleton] at h1; omega
          · have := (hL _ h2).2; omega
      · rw [if_neg hk]
        have hF : ∀ p ∈ ((List.range (k - 1)).map
            fun idx => 41 + (idx * 59) / (k - 1)), 41 ≤ p ∧ p ≤ 100 := by
          intro p hp
          simp only [List.mem_map, List.mem_range] at hp
          obtain ⟨idx, hidx, rfl⟩ := hp
          have hb := div_mul_bound idx 59 (k - 1) hidx
          refine ⟨Nat.le_add_right 41 _, ?_⟩
          calc 41 + idx * 59 / (k - 1) ≤ 41 + 59 := Nat.add_le_add_left hb 41
          _ ≤ 100 := by norm_num
        have hPF : List.Pairwise (· ≤ ·)
            ((List.range (k - 1)).map fun idx => 41 + (idx * 59) / (k - 1)) :=
          pairwise_le_scaled _ 41 59 (k - 1) (List.pairwise_lt_range (k - 1))
        constructor
        · rw [List.pairwise_append]
          refine ⟨?_, by decide, ?_⟩
          · rw [List.pairwise_append]
            refine ⟨?_, hPF, ?_⟩
            · rw [List.pairwise_append]
              refine ⟨by decide, hPL, ?_⟩
              intro a ha b hb
              simp only [List.mem_singleton] at ha
              subst ha
              exact (hL b hb).1
            · intro a ha b hb
              have h41 := (hF b hb).1
              rcases List.mem_append.mp ha with h1 | h2
              · simp only [List.mem_singleton] at h1; omega
              · have := (hL _ h2).2; omega
          · intro a ha b hb
            simp only [List.mem_singleton] at hb
            subst hb
            rcases List.mem_append.mp ha with h1 | h2
            · rcases List.mem_append.mp h1 with h3 | h4
              · simp only [List.mem_singleton] at h3; omega
              · have := (hL _ h4).2; omega
            · have := (hF _ h2).2; omega
        · intro p hp
          rcases List.mem_append.mp hp with h1 | h2
          · rcases List.mem_append.mp h1 with h3 | h4
            · rcases List.mem_append.mp h3 with h5 | h6
              · simp only [List.mem_singleton] at h5; omega
              · have := (hL _ h6).2; omega
            · have := (hF _ h4).2; omega
          · simp only [List.mem_singleton] at h2; omega


/-- Witness for claim C4 at a concrete input: a 1×2 image whose left pixel
is blue and right pixel red with region `(0, 0, 1, 1)`; the single
output pixel is opaque and its RGB belongs to the unique color list. -/
theorem create_unique_sprite_spec_witness :
    ((get_selection_image [[(0,0,255), (255,0,0)]] (0, 0, 1, 1)).getD 0
        []).getD 0 blackC
      ∈ find_unique_colors [[(0,0,255), (255,0,0)]] (0, 0, 1, 1) :=
  (((create_unique_sprite_spec [[(0,0,255), (255,0,0)]] (0, 0, 1, 1)).2
      [[(0,0,255,255)]] 0 0 (by decide) (by decide) (by decide)).2.2.1
    (by decide)).2

/-- Witness for claim C9 at concrete inputs: the trace of
`create_unique_sprite` on a 1×2 image is non-decreasing and its final
report of 100 is within bounds. -/
theorem progress_reports_monotone_bounded_witness :
    List.Pairwise (· ≤ ·)
      (create_unique_sprite_trace [[(0,0,255), (255,0,0)]] (0, 0, 1, 1)) ∧
    (100 : Nat) ≤ 100 :=
  ⟨(progress_reports_monotone_bounded [[(0,0,255), (255,0,0)]] (0, 0, 1, 1)
      []).2.1.1,
   (progress_reports_monotone_bounded [[(0,0,255), (255,0,0)]] (0, 0, 1, 1)
      []).2.1.2 100 (by decide)⟩

end SpriteForge
